import Mathlib

/-!
# Verification of the content-metadata and recommendation subsystem

Shallow embedding of `src/ai_helper.py` (File-Store repository).

Modelling conventions:
* Python dicts are embedded as association lists `List (String × α)`;
  `List.lookup` is dict read, `setK` is dict assignment (it updates the
  first entry with the given key in place, preserving its position, and
  appends a fresh key at the end — exactly Python's insertion-order
  semantics).  Catalog ("stored_files") iteration order is list order.
* Python string truthiness (`if category:`) is `≠ ""`; `None` maps to
  `Option.none`.
* Timestamps (`datetime.datetime.now().isoformat()`) are passed in as an
  explicit `now : String` parameter.
* The OpenAI call in `analyze_file_with_ai` is an external effect; it is
  embedded as an explicit outcome argument (`AIOutcome`): the key may be
  missing, the call/parse may raise, or it may return a parsed JSON object.
-/

namespace FileStore

/-- A record of the in-memory `file_metadata` store (`ai_helper.py`).
`description` is `none` when the Python dict carries no `"description"`
key (the heuristic path), `some s` when it does (the AI path).
The Python key `"ai_analyzed"` is the spec's `classified_by_ai`. -/
structure FileMetadata where
  category : String
  extension : String
  tags : List String
  description : Option String
  ai_analyzed : Bool
  last_accessed : Option String
  access_count : Nat
  created_at : String
deriving DecidableEq, Repr

/-- A catalog entry (`stored_files` value).  Only the fields the
metadata subsystem reads; `unique_id` is optional because
`file_info.get("unique_id", file_id)` supplies a default. -/
structure FileInfo where
  name : String
  ftype : String
  size : Nat
  unique_id : Option String
deriving DecidableEq, Repr

/-- A record of the in-memory `user_preferences` store. -/
structure UserPrefs where
  favorite_categories : List (String × Nat)
  favorite_tags : List (String × Nat)
  recently_accessed : List String
  explicit_preferences : List (String × String)
deriving DecidableEq, Repr

/-- The fresh preference record created on a user's first interaction
(`update_user_preferences`, lines 258-264). -/
def emptyPrefs : UserPrefs := ⟨[], [], [], []⟩

/-- Python dict assignment `d[k] = v`: overwrite the first entry with key
`k` in place, otherwise append at the end. -/
def setK {α : Type} : List (String × α) → String → α → List (String × α)
  | [], k, v => [(k, v)]
  | p :: ps, k, v => if p.1 = k then (k, v) :: ps else p :: setK ps k v

/-- Python `d[k] = d.get(k, 0) + n`. -/
def bump (d : List (String × Nat)) (k : String) (n : Nat) : List (String × Nat) :=
  setK d k ((d.lookup k).getD 0 + n)

/-- The `DEFAULT_CATEGORIES` constant (ai_helper.py lines 28-31). -/
def DEFAULT_CATEGORIES : List String :=
  ["Documents", "Images", "Videos", "Audio", "Archives",
   "Presentations", "Spreadsheets", "Code", "Books", "Other"]

/-- The `elif` chain over extensions inside `analyze_file_name`'s
`"document"` branch (lines 123-141); falls through to the initial
`category = "Other"`. -/
def docCategoryOfExtension (extension : String) : String :=
  if extension ∈ ["pdf", "doc", "docx", "txt", "rtf"] then "Documents"
  else if extension ∈ ["jpg", "jpeg", "png", "gif", "bmp", "svg", "webp"] then "Images"
  else if extension ∈ ["mp4", "avi", "mov", "wmv", "flv", "mkv", "webm"] then "Videos"
  else if extension ∈ ["mp3", "wav", "ogg", "aac", "flac", "m4a"] then "Audio"
  else if extension ∈ ["zip", "rar", "tar", "gz", "7z"] then "Archives"
  else if extension ∈ ["ppt", "pptx"] then "Presentations"
  else if extension ∈ ["xls", "xlsx", "csv"] then "Spreadsheets"
  else if extension ∈ ["py", "js", "html", "css", "java", "cpp", "c", "php", "go", "rb"] then "Code"
  else if extension ∈ ["epub", "mobi", "azw", "azw3", "fb2"] then "Books"
  else "Other"

/-- Python `str.split(".")`: split at every `'.'`, keeping empty
segments (so the result always has one more segment than there are
dots). -/
def splitOnDot : List Char → List (List Char)
  | [] => [[]]
  | c :: cs =>
    let r := splitOnDot cs
    if c = '.' then [] :: r
    else
      match r with
      | s :: rest => (c :: s) :: rest
      | [] => [[c]]

/-- Embeds `extension = file_name.split(".")[-1].lower() if "." in file_name else ""`
(lines 111-113; the same expression recurs on line 229).  The Python
substring test `"." in file_name` is membership of the character `'.'`;
`.lower()` is modelled by `Char.toLower` (they agree on ASCII names). -/
def extensionOf (file_name : String) : String :=
  if '.' ∈ file_name.data then ⟨((splitOnDot file_name.data).getLastD []).map Char.toLower⟩
  else ""

/-- Embeds `analyze_file_name` (lines 104-165).  The `try` body cannot raise, so
the `except` branch is dead code and is not modelled. -/
def analyze_file_name (file_name : String) (file_type : String) (now : String) :
    FileMetadata :=
  let extension := extensionOf file_name
  let category :=
    if file_type = "photo" then "Images"
    else if file_type = "video" then "Videos"
    else if file_type = "audio" then "Audio"
    else if file_type = "document" then docCategoryOfExtension extension
    else "Other"
  { category := category
    extension := extension
    tags := []
    description := none
    ai_analyzed := false
    last_accessed := none
    access_count := 0
    created_at := now }

/-- The parsed JSON object returned by the external classification
capability; every field is read with `result.get(...)` and a default, so
each is optional. -/
structure AIResult where
  category : Option String
  tags : Option (List String)
  description : Option String
deriving DecidableEq, Repr

/-- Outcome of the external call in `analyze_file_with_ai`: the API key
may be unset (lines 174-176), the call or the JSON parsing may raise
(caught on line 237), or a parsed object comes back (line 222). -/
inductive AIOutcome where
  | noApiKey : AIOutcome
  | failure : String → AIOutcome
  | ok : AIResult → AIOutcome
deriving DecidableEq, Repr

/-- Embeds `analyze_file_with_ai` (lines 167-240).  `file_info.get("name", "")`
and `file_info.get("type", "document")` are the (total) `FileInfo`
fields.  On the two failure outcomes the `except` handler (or the early
return) yields the heuristic result; on success the metadata of lines
225-234 is built. -/
def analyze_file_with_ai (file_info : FileInfo) (outcome : AIOutcome) (now : String) :
    FileMetadata :=
  match outcome with
  | .noApiKey => analyze_file_name file_info.name file_info.ftype now
  | .failure _ => analyze_file_name file_info.name file_info.ftype now
  | .ok result =>
    { category := result.category.getD "Other"
      tags := (result.tags.getD []).take 5
      description := some (result.description.getD "")
      extension := extensionOf file_info.name
      ai_analyzed := true
      last_accessed := none
      access_count := 0
      created_at := now }

/-- Embeds `track_file_access` (lines 242-249); `save_file_metadata` is pure
persistence and has no effect on the in-memory store. -/
def track_file_access (fm : List (String × FileMetadata)) (file_id : String)
    (now : String) : List (String × FileMetadata) :=
  match fm.lookup file_id with
  | none => fm
  | some metadata =>
    setK fm file_id
      { metadata with last_accessed := some now, access_count := metadata.access_count + 1 }

/-- The `if file_id and file_id in file_metadata:` block of
`update_user_preferences` (lines 269-284).  Besides the updated record
it returns the value the local variable `category` holds afterwards:
the source rebinds the `category` parameter to the file's category on
line 279, so the block's result feeds the later explicit-interest
branch. -/
def fileAccessUpdate (fm : List (String × FileMetadata)) (prefs : UserPrefs)
    (file_id : Option String) : UserPrefs × Option String :=
  match file_id with
  | none => (prefs, none)
  | some fid =>
    if fid = "" then (prefs, none)
    else
      match fm.lookup fid with
      | none => (prefs, none)
      | some metadata =>
        let recent := prefs.recently_accessed
        let recent := if recent.contains fid then recent.erase fid else recent
        let recent := (fid :: recent).take 10
        let prefs := { prefs with recently_accessed := recent }
        let prefs :=
          if metadata.category ≠ "" then
            { prefs with favorite_categories := bump prefs.favorite_categories metadata.category 1 }
          else prefs
        let prefs :=
          { prefs with
            favorite_tags := metadata.tags.foldl (fun d t => bump d t 1) prefs.favorite_tags }
        (prefs, some metadata.category)

/-- The `if category:` block (lines 287-288). -/
def interestCategoryUpdate (prefs : UserPrefs) (category : Option String) : UserPrefs :=
  match category with
  | some c =>
    if c ≠ "" then { prefs with favorite_categories := bump prefs.favorite_categories c 3 }
    else prefs
  | none => prefs

/-- The `if tags:` block (lines 290-292). -/
def interestTagsUpdate (prefs : UserPrefs) (tags : Option (List String)) : UserPrefs :=
  match tags with
  | some ts =>
    if ts ≠ [] then
      { prefs with favorite_tags := ts.foldl (fun d t => bump d t 3) prefs.favorite_tags }
    else prefs
  | none => prefs

/-- The `if explicit_preference:` block (lines 295-296): `dict.update`,
i.e. key-wise assignment of every given pair. -/
def explicitUpdate (prefs : UserPrefs) (explicit_preference : Option (List (String × String))) :
    UserPrefs :=
  match explicit_preference with
  | some ep =>
    if ep ≠ [] then
      { prefs with
        explicit_preferences := ep.foldl (fun d kv => setK d kv.1 kv.2) prefs.explicit_preferences }
    else prefs
  | none => prefs

/-- Embeds `update_user_preferences` (lines 251-300).  `save_user_preferences`
is pure persistence.  `str(user_id)` is taken as the `String` key. -/
def update_user_preferences (fm : List (String × FileMetadata))
    (ups : List (String × UserPrefs)) (user_id : String) (file_id : Option String)
    (category : Option String) (tags : Option (List String))
    (explicit_preference : Option (List (String × String))) : List (String × UserPrefs) :=
  let ups1 := if (ups.lookup user_id).isSome then ups else setK ups user_id emptyPrefs
  let prefs0 := (ups1.lookup user_id).getD emptyPrefs
  let fa := fileAccessUpdate fm prefs0 file_id
  let category1 := match fa.2 with | some c => some c | none => category
  let prefs4 := interestCategoryUpdate fa.1 category1
  let prefs5 := interestTagsUpdate prefs4 tags
  let prefs6 := explicitUpdate prefs5 explicit_preference
  setK ups1 user_id prefs6

/-- The Preference Tracker's `record_access` entry point:
`update_user_preferences(user_id, file_id)` with all other parameters
left at their `None` defaults (as called from `simple_bot.py`). -/
def record_access (fm : List (String × FileMetadata)) (ups : List (String × UserPrefs))
    (user_id : String) (file_id : String) : List (String × UserPrefs) :=
  update_user_preferences fm ups user_id (some file_id) none none none

/-- A user's preference record as observed through lookups: the stored
record, or the zero-information fresh record for an unknown user. -/
def prefsView (ups : List (String × UserPrefs)) (user_id : String) : UserPrefs :=
  (ups.lookup user_id).getD emptyPrefs

/-- Embeds `meta_id = file_info.get("unique_id", file_id)` (lines 336, 396, 437). -/
def metaIdOf (p : String × FileInfo) : String := p.2.unique_id.getD p.1

/-- Stable descending sort on scores: the embedding of Python
`sorted(pairs, key=lambda x: x[1], reverse=True)` (lines 353, 415).
Insertion from the right; an element is placed in front of the first
element whose score does not exceed its own, so equal scores keep their
original relative order. -/
def insertDescBy (x : String × Nat) : List (String × Nat) → List (String × Nat)
  | [] => [x]
  | y :: ys => if y.2 ≤ x.2 then x :: y :: ys else y :: insertDescBy x ys

def sortDesc (l : List (String × Nat)) : List (String × Nat) :=
  l.foldr insertDescBy []

/-- The per-file score of `get_recommendations` (lines 333-350):
category weight only when the category is truthy and present among the
favorites, plus the weight of each favored tag. -/
def recommendScore (fm : List (String × FileMetadata))
    (fav_categories fav_tags : List (String × Nat)) (p : String × FileInfo) : Nat :=
  match fm.lookup (metaIdOf p) with
  | none => 0
  | some metadata =>
    (if metadata.category ≠ "" ∧ (fav_categories.lookup metadata.category).isSome then
      (fav_categories.lookup metadata.category).getD 0
    else 0)
    + (metadata.tags.map (fun tag =>
        if (fav_tags.lookup tag).isSome then (fav_tags.lookup tag).getD 0 else 0)).sum

/-- Embeds `get_recommendations` (lines 302-362).  The `try` body cannot raise
in this model, so the `except` fallback is dead code. -/
def get_recommendations (fm : List (String × FileMetadata))
    (ups : List (String × UserPrefs)) (user_id : String)
    (stored_files : List (String × FileInfo)) (count : Nat) : List String :=
  match ups.lookup user_id with
  | none =>
    let file_ids := stored_files.map Prod.fst
    file_ids.take (min count file_ids.length)
  | some user_prefs =>
    let recent_files := user_prefs.recently_accessed
    let file_scores :=
      (stored_files.filter (fun p => !(recent_files.contains p.1))).map
        (fun p => (p.1, recommendScore fm user_prefs.favorite_categories
                          user_prefs.favorite_tags p))
    ((sortDesc file_scores).map Prod.fst).take count

/-- The per-file similarity score of `get_similar_files` (lines
400-410): `5` for a category match plus `2` per common distinct tag
(`len(set(ref_tags) & set(file_tags))`). -/
def similarityScore (ref_metadata metadata : FileMetadata) : Nat :=
  (if metadata.category = ref_metadata.category then 5 else 0)
  + 2 * ((ref_metadata.tags.filter (fun t => metadata.tags.contains t)).dedup).length

/-- Embeds `meta_id = stored_files.get(file_id, {}).get("unique_id", file_id)`
(line 378): the reference file's metadata key. -/
def similarMetaId (stored_files : List (String × FileInfo)) (file_id : String) : String :=
  match stored_files.lookup file_id with
  | some info => info.unique_id.getD file_id
  | none => file_id

/-- Embeds `get_similar_files` (lines 364-422). -/
def get_similar_files (fm : List (String × FileMetadata))
    (stored_files : List (String × FileInfo)) (file_id : String) (count : Nat) :
    List String :=
  let meta_id := similarMetaId stored_files file_id
  match fm.lookup meta_id with
  | none => []
  | some ref_metadata =>
    let similarity_scores :=
      (stored_files.filter (fun p => !(p.1 == file_id))).filterMap (fun p =>
        match fm.lookup (metaIdOf p) with
        | none => none
        | some metadata => some (p.1, similarityScore ref_metadata metadata))
    ((sortDesc similarity_scores).map Prod.fst).take count

/-- Embeds `categories[category].append(file_id)`: append to the (first) entry
with the given key; Python guards the call so the key is present. -/
def appendTo (cats : List (String × List String)) (k : String) (fid : String) :
    List (String × List String) :=
  match cats with
  | [] => []
  | p :: ps => if p.1 = k then (p.1, p.2 ++ [fid]) :: ps else p :: appendTo ps k fid

/-- The category a catalog entry is filed under before the
`if category in categories` check (lines 437-441). -/
def rawCategory (fm : List (String × FileMetadata)) (p : String × FileInfo) : String :=
  match fm.lookup (metaIdOf p) with
  | some m => m.category
  | none => "Other"

/-- Embeds `organize_files_by_category` (lines 424-451). -/
def organize_files_by_category (fm : List (String × FileMetadata))
    (stored_files : List (String × FileInfo)) : List (String × List String) :=
  let init := DEFAULT_CATEGORIES.map (fun c => (c, ([] : List String)))
  let cats := stored_files.foldl (fun acc p =>
    let category := rawCategory fm p
    if (acc.lookup category).isSome then appendTo acc category p.1
    else appendTo acc "Other" p.1) init
  cats.filter (fun p => !p.2.isEmpty)

/-! ## Spec-side formulations (from the claims' wording, for refinement) -/

/-- The key a catalog entry's identifier ends up under in
`organize_files_by_category`: its raw category when that is one of the
fixed keys, `"Other"` otherwise. -/
def tgtCategory (fm : List (String × FileMetadata)) (p : String × FileInfo) : String :=
  if rawCategory fm p ∈ DEFAULT_CATEGORIES then rawCategory fm p else "Other"

/-- The Recommender score as the spec words it:
`favorite_categories.get(file.category, 0) +
 sum(favorite_tags.get(tag, 0) for tag in file.tags)`; an entry without
a metadata record scores `0` but remains eligible. -/
def specRecommendScore (fm : List (String × FileMetadata))
    (fav_categories fav_tags : List (String × Nat)) (p : String × FileInfo) : Nat :=
  match fm.lookup (metaIdOf p) with
  | none => 0
  | some m =>
    (fav_categories.lookup m.category).getD 0
      + (m.tags.map (fun t => (fav_tags.lookup t).getD 0)).sum

/-- The Recommender pipeline as the spec words it: filter out recently
accessed entries, score with `specRecommendScore`, stable-sort
descending, return the first `count` identifiers. -/
def recommend_spec (fm : List (String × FileMetadata)) (prefs : UserPrefs)
    (stored_files : List (String × FileInfo)) (count : Nat) : List String :=
  ((sortDesc ((stored_files.filter
      (fun p => !(prefs.recently_accessed.contains p.1))).map
      (fun p => (p.1, specRecommendScore fm prefs.favorite_categories
        prefs.favorite_tags p)))).map Prod.fst).take count

/-- The Similarity score as the spec words it: `5` for a category match
plus `2 ×` the cardinality of the tag-set intersection. -/
def specSimilarityScore (ref_metadata metadata : FileMetadata) : Nat :=
  (if metadata.category = ref_metadata.category then 5 else 0)
    + 2 * (ref_metadata.tags.toFinset ∩ metadata.tags.toFinset).card

/-- The Similarity pipeline as the spec words it: skip the reference
file and every entry without a metadata record, score with
`specSimilarityScore` against the reference record, stable-sort
descending, return the first `count` identifiers. -/
def similar_spec (fm : List (String × FileMetadata))
    (stored_files : List (String × FileInfo)) (file_id : String) (count : Nat)
    (ref_metadata : FileMetadata) : List String :=
  ((sortDesc ((stored_files.filter (fun p => !(p.1 == file_id))).filterMap (fun p =>
      match fm.lookup (metaIdOf p) with
      | none => none
      | some metadata => some (p.1, specSimilarityScore ref_metadata metadata)))).map
    Prod.fst).take count

/-! ## Concrete fixtures for evaluated instances -/

/-- A heuristic-style metadata record used by concrete-input theorems. -/
def exMeta : FileMetadata :=
  { category := "Documents", extension := "pdf", tags := ["work"], description := none,
    ai_analyzed := false, last_accessed := none, access_count := 0, created_at := "t0" }

/-- An AI-produced record whose category is outside the fixed set. -/
def exMetaWeird : FileMetadata :=
  { category := "Weird", extension := "bin", tags := [], description := none,
    ai_analyzed := true, last_accessed := none, access_count := 0, created_at := "t0" }

/-- A plain catalog entry without a `unique_id` key. -/
def exInfo : FileInfo := { name := "a.pdf", ftype := "document", size := 1, unique_id := none }

/-! ## Association-list (dict) lemmas -/

theorem lookupCons {α : Type} (a : String) (p : String × α) (ps : List (String × α)) :
    (p :: ps).lookup a = if a = p.1 then some p.2 else ps.lookup a := by
  rcases p with ⟨k, b⟩
  rw [List.lookup_cons]
  by_cases h : a = k
  · simp [h]
  · simp [h, beq_eq_false_iff_ne.mpr h]

theorem lookup_setK_self {α : Type} (d : List (String × α)) (k : String) (v : α) :
    (setK d k v).lookup k = some v := by
  induction d with
  | nil => simp [setK, lookupCons]
  | cons p ps ih =>
    by_cases h : p.1 = k
    · simp [setK, h, lookupCons]
    · simp only [setK, if_neg h]
      rw [lookupCons, if_neg (fun hk => h hk.symm), ih]

theorem lookup_setK_ne {α : Type} (d : List (String × α)) (k k' : String) (v : α)
    (h : k' ≠ k) : (setK d k v).lookup k' = d.lookup k' := by
  induction d with
  | nil => simp [setK, lookupCons, h]
  | cons p ps ih =>
    by_cases hp : p.1 = k
    · subst hp
      have hs : setK (p :: ps) p.1 v = (p.1, v) :: ps := by simp [setK]
      rw [hs, lookupCons, lookupCons, if_neg h, if_neg h]
    · simp only [setK, if_neg hp]
      rw [lookupCons, lookupCons, ih]

theorem getD_bump_self (d : List (String × Nat)) (k : String) (n : Nat) :
    ((bump d k n).lookup k).getD 0 = (d.lookup k).getD 0 + n := by
  rw [bump, lookup_setK_self, Option.getD_some]

theorem lookup_bump_ne (d : List (String × Nat)) (k k' : String) (n : Nat)
    (h : k' ≠ k) : (bump d k n).lookup k' = d.lookup k' := by
  rw [bump, lookup_setK_ne _ _ _ _ h]

theorem getD_le_bump (d : List (String × Nat)) (k : String) (n : Nat) (c : String) :
    (d.lookup c).getD 0 ≤ ((bump d k n).lookup c).getD 0 := by
  by_cases h : c = k
  · subst h
    rw [getD_bump_self]
    exact Nat.le_add_right _ _
  · rw [lookup_bump_ne _ _ _ _ h]

theorem getD_le_foldl_bump (ts : List String) (n : Nat) (d : List (String × Nat))
    (c : String) :
    (d.lookup c).getD 0 ≤ ((ts.foldl (fun d t => bump d t n) d).lookup c).getD 0 := by
  induction ts generalizing d with
  | nil => exact Nat.le_refl _
  | cons t ts ih => exact Nat.le_trans (getD_le_bump d t n c) (ih (bump d t n))

theorem lookup_foldl_bump_not_mem (ts : List String) (n : Nat)
    (d : List (String × Nat)) (c : String) (h : c ∉ ts) :
    ((ts.foldl (fun d t => bump d t n) d).lookup c) = d.lookup c := by
  induction ts generalizing d with
  | nil => rfl
  | cons t ts ih =>
    have hc : c ≠ t := fun hct => h (hct ▸ List.mem_cons_self t ts)
    have hts : c ∉ ts := fun hm => h (List.mem_cons_of_mem t hm)
    rw [List.foldl_cons, ih (bump d t n) hts, lookup_bump_ne _ _ _ _ hc]

/-! ## Stable descending sort lemmas -/

theorem insertDescBy_perm (x : String × Nat) (l : List (String × Nat)) :
    (insertDescBy x l).Perm (x :: l) := by
  induction l with
  | nil => exact List.Perm.refl _
  | cons y ys ih =>
    rw [insertDescBy]
    by_cases h : y.2 ≤ x.2
    · rw [if_pos h]
    · rw [if_neg h]
      exact List.Perm.trans (List.Perm.cons y ih) (List.Perm.swap x y ys)

theorem sortDesc_perm (l : List (String × Nat)) : (sortDesc l).Perm l := by
  induction l with
  | nil => exact List.Perm.refl _
  | cons x xs ih =>
    exact List.Perm.trans (insertDescBy_perm x (sortDesc xs)) (List.Perm.cons x ih)

theorem mem_insertDescBy {z x : String × Nat} {l : List (String × Nat)}
    (h : z ∈ insertDescBy x l) : z = x ∨ z ∈ l := by
  have := (insertDescBy_perm x l).mem_iff.mp h
  simpa using this

theorem insertDescBy_pairwise (x : String × Nat) (l : List (String × Nat))
    (h : l.Pairwise (fun a b => b.2 ≤ a.2)) :
    (insertDescBy x l).Pairwise (fun a b => b.2 ≤ a.2) := by
  induction l with
  | nil => simp [insertDescBy]
  | cons y ys ih =>
    rw [insertDescBy]
    rcases List.pairwise_cons.mp h with ⟨hy, hys⟩
    by_cases hxy : y.2 ≤ x.2
    · rw [if_pos hxy]
      refine List.pairwise_cons.mpr ⟨?_, h⟩
      intro z hz
      rcases List.mem_cons.mp hz with hz | hz
      · exact hz ▸ hxy
      · exact Nat.le_trans (hy z hz) hxy
    · rw [if_neg hxy]
      refine List.pairwise_cons.mpr ⟨?_, ih hys⟩
      intro z hz
      rcases mem_insertDescBy hz with hz | hz
      · exact hz ▸ Nat.le_of_lt (Nat.lt_of_not_le hxy)
      · exact hy z hz

theorem sortDesc_pairwise (l : List (String × Nat)) :
    (sortDesc l).Pairwise (fun a b => b.2 ≤ a.2) := by
  induction l with
  | nil => simp [sortDesc]
  | cons x xs ih => exact insertDescBy_pairwise x (sortDesc xs) ih

theorem insertDescBy_filter_score (x : String × Nat) (l : List (String × Nat)) (s : Nat) :
    (insertDescBy x l).filter (fun p => p.2 == s) =
      if x.2 = s then x :: l.filter (fun p => p.2 == s)
      else l.filter (fun p => p.2 == s) := by
  induction l with
  | nil =>
    by_cases h : x.2 = s <;> simp [insertDescBy, List.filter_cons, h]
  | cons y ys ih =>
    rw [insertDescBy]
    by_cases hxy : y.2 ≤ x.2
    · rw [if_pos hxy]
      by_cases h : x.2 = s <;> simp [List.filter_cons, h]
    · rw [if_neg hxy]
      by_cases hy : y.2 = s
      · by_cases h : x.2 = s
        · exact absurd (h ▸ hy ▸ Nat.le_refl _) hxy
        · simp [List.filter_cons, hy, h, ih]
      · by_cases h : x.2 = s <;> simp [List.filter_cons, hy, h, ih]

theorem sortDesc_filter_score (l : List (String × Nat)) (s : Nat) :
    (sortDesc l).filter (fun p => p.2 == s) = l.filter (fun p => p.2 == s) := by
  induction l with
  | nil => rfl
  | cons x xs ih =>
    have hfold : sortDesc (x :: xs) = insertDescBy x (sortDesc xs) := rfl
    rw [hfold, insertDescBy_filter_score]
    by_cases h : x.2 = s <;> simp [List.filter_cons, h, ih]

/-! ## Categorizer characterization -/

theorem lookup_map_self (cs : List String) (f : String → List String) (k : String) :
    ((cs.map (fun c => (c, f c))).lookup k) = if k ∈ cs then some (f k) else none := by
  induction cs with
  | nil => simp
  | cons c cs ih =>
    rw [List.map_cons, lookupCons]
    by_cases h : k = c
    · subst h
      simp
    · simp only [ih]
      simp [h]

theorem appendTo_map (cs : List String) (hnd : cs.Nodup) (f : String → List String)
    (k fid : String) :
    appendTo (cs.map fun c => (c, f c)) k fid =
      cs.map (fun c => (c, if c = k then f c ++ [fid] else f c)) := by
  induction cs with
  | nil => rfl
  | cons c cs ih =>
    rcases List.nodup_cons.mp hnd with ⟨hc, hcs⟩
    rw [List.map_cons, List.map_cons, appendTo]
    by_cases h : c = k
    · rw [if_pos h, if_pos h]
      have hcong : ∀ a ∈ cs, (fun c => (c, if c = k then f c ++ [fid] else f c)) a =
          (fun c => (c, f c)) a := by
        intro a ha
        have hak : a ≠ k := fun hak => hc ((h.symm ▸ hak : a = c) ▸ ha)
        simp [hak]
      rw [List.map_congr_left hcong]
    · rw [if_neg h, if_neg h, ih hcs]

theorem organize_foldl (fm : List (String × FileMetadata))
    (stored : List (String × FileInfo)) (f : String → List String) :
    stored.foldl (fun acc p =>
        let category := rawCategory fm p
        if (acc.lookup category).isSome then appendTo acc category p.1
        else appendTo acc "Other" p.1)
      (DEFAULT_CATEGORIES.map fun c => (c, f c)) =
    DEFAULT_CATEGORIES.map fun c =>
      (c, f c ++ (stored.filter (fun p => tgtCategory fm p == c)).map Prod.fst) := by
  have hnd : DEFAULT_CATEGORIES.Nodup := by decide
  induction stored generalizing f with
  | nil =>
    simp
  | cons p rest ih =>
    rw [List.foldl_cons]
    by_cases hc : rawCategory fm p ∈ DEFAULT_CATEGORIES
    · have hl : ((DEFAULT_CATEGORIES.map fun c => (c, f c)).lookup
          (rawCategory fm p)).isSome = true := by
        rw [lookup_map_self, if_pos hc]
        rfl
      have htgt : tgtCategory fm p = rawCategory fm p := if_pos hc
      simp only [hl, if_true, if_pos]
      rw [appendTo_map _ hnd, ih]
      refine List.map_congr_left (fun c _ => ?_)
      by_cases h : c = rawCategory fm p
      · subst h
        simp [List.filter_cons, htgt, List.append_assoc]
      · have hne : (tgtCategory fm p == c) = false := by
          rw [htgt]
          exact beq_eq_false_iff_ne.mpr (fun he => h he.symm)
        simp [List.filter_cons, hne, h]
    · have hl : ((DEFAULT_CATEGORIES.map fun c => (c, f c)).lookup
          (rawCategory fm p)).isSome = false := by
        rw [lookup_map_self, if_neg hc]
        rfl
      have htgt : tgtCategory fm p = "Other" := if_neg hc
      simp only [hl, Bool.false_eq_true, if_false]
      rw [appendTo_map _ hnd, ih]
      refine List.map_congr_left (fun c _ => ?_)
      by_cases h : c = "Other"
      · subst h
        simp [List.filter_cons, htgt, List.append_assoc]
      · have hne : (tgtCategory fm p == c) = false := by
          rw [htgt]
          exact beq_eq_false_iff_ne.mpr (fun he => h he.symm)
        simp [List.filter_cons, hne, h]

/-- Rewrites `organize_files_by_category` in closed form: one entry per fixed
category, holding the identifiers (in catalog order) of the entries
filed under it, with empty categories dropped. -/
theorem organize_eq (fm : List (String × FileMetadata))
    (stored : List (String × FileInfo)) :
    organize_files_by_category fm stored =
      (DEFAULT_CATEGORIES.map fun c =>
        (c, (stored.filter (fun p => tgtCategory fm p == c)).map Prod.fst)).filter
        (fun p => !p.2.isEmpty) := by
  rw [organize_files_by_category]
  rw [show (DEFAULT_CATEGORIES.map fun c => (c, ([] : List String))) =
      DEFAULT_CATEGORIES.map fun c => (c, (fun _ => ([] : List String)) c) from rfl]
  rw [organize_foldl fm stored (fun _ => [])]
  simp

theorem filter_or_perm {α : Type} (l : List α) (p q : α → Bool)
    (h : ∀ x, ¬(p x = true ∧ q x = true)) :
    (l.filter p ++ l.filter q).Perm (l.filter (fun x => p x || q x)) := by
  induction l with
  | nil => exact List.Perm.refl _
  | cons x xs ih =>
    by_cases hp : p x = true
    · have hq : q x = false := by
        cases hqx : q x
        · rfl
        · exact absurd ⟨hp, hqx⟩ (h x)
      simp only [List.filter_cons, hp, hq, if_true, Bool.false_eq_true, if_false,
        Bool.true_or, List.cons_append]
      exact ih.cons x
    · have hp' : p x = false := by
        cases hpx : p x
        · rfl
        · exact absurd hpx hp
      by_cases hq : q x = true
      · simp only [List.filter_cons, hp', hq, if_true, Bool.false_eq_true, if_false,
          Bool.false_or]
        exact List.Perm.trans List.perm_middle (ih.cons x)
      · have hq' : q x = false := by
          cases hqx : q x
          · rfl
          · exact absurd hqx hq
        simp only [List.filter_cons, hp', hq', Bool.false_eq_true, if_false,
          Bool.false_or]
        exact ih

theorem join_map_filter_perm (cs : List String) (hnd : cs.Nodup)
    (stored : List (String × FileInfo)) (g : String × FileInfo → String) :
    ((cs.map fun c => stored.filter (fun p => g p == c)).flatten).Perm
      (stored.filter (fun p => cs.contains (g p))) := by
  induction cs with
  | nil => simp
  | cons c cs ih =>
    rcases List.nodup_cons.mp hnd with ⟨hc, hcs⟩
    rw [List.map_cons, List.flatten_cons]
    have h1 := (ih hcs).append_left (stored.filter (fun p => g p == c))
    have h2 : ((stored.filter (fun p => g p == c)) ++
        (stored.filter (fun p => cs.contains (g p)))).Perm
        (stored.filter (fun x => (g x == c) || cs.contains (g x))) := by
      refine filter_or_perm stored _ _ (fun x hx => ?_)
      have hgc : g x = c := by
        have := hx.1
        exact beq_iff_eq.mp this
      have : (c ∈ cs) := by
        have hcon := hx.2
        rw [hgc] at hcon
        exact List.mem_of_elem_eq_true hcon
      exact hc this
    have h3 : (stored.filter (fun x => (g x == c) || cs.contains (g x))) =
        stored.filter (fun p => (c :: cs).contains (g p)) := by
      refine List.filter_congr (fun x hx => ?_)
      rw [List.contains_cons]
    exact (h1.trans h2).trans (h3 ▸ List.Perm.refl _)

theorem join_filter_isEmpty {β : Type} (l : List (String × List β)) :
    (((l.filter fun p => !p.2.isEmpty).map Prod.snd).flatten) = ((l.map Prod.snd).flatten) := by
  induction l with
  | nil => rfl
  | cons p ps ih =>
    by_cases h : p.2.isEmpty = true
    · have hnil : p.2 = [] := List.isEmpty_iff.mp h
      simp [List.filter_cons, h, hnil, ih]
    · have h' : (!p.2.isEmpty) = true := by
        cases hh : p.2.isEmpty
        · rfl
        · exact absurd hh h
      simp [List.filter_cons, h', ih]

theorem tgtCategory_mem (fm : List (String × FileMetadata)) (p : String × FileInfo) :
    tgtCategory fm p ∈ DEFAULT_CATEGORIES := by
  rw [tgtCategory]
  by_cases h : rawCategory fm p ∈ DEFAULT_CATEGORIES
  · rw [if_pos h]
    exact h
  · rw [if_neg h]
    decide

/-- The concatenation of the lists `organize_files_by_category` returns
is a permutation of the catalog's identifiers. -/
theorem organize_join_perm (fm : List (String × FileMetadata))
    (stored : List (String × FileInfo)) :
    ((((organize_files_by_category fm stored).map Prod.snd).flatten)).Perm
      (stored.map Prod.fst) := by
  rw [organize_eq, join_filter_isEmpty]
  have hstep : ((DEFAULT_CATEGORIES.map fun c =>
      (c, (stored.filter (fun p => tgtCategory fm p == c)).map Prod.fst)).map Prod.snd) =
      (DEFAULT_CATEGORIES.map fun c => stored.filter (fun p => tgtCategory fm p == c)).map
        (List.map Prod.fst) := by
    rw [List.map_map, List.map_map]
    rfl
  rw [hstep, ← List.map_flatten]
  have hperm := join_map_filter_perm DEFAULT_CATEGORIES (by decide) stored
    (tgtCategory fm)
  have hall : stored.filter (fun p => DEFAULT_CATEGORIES.contains (tgtCategory fm p)) =
      stored := by
    rw [List.filter_eq_self]
    intro a _
    exact List.elem_eq_true_of_mem (tgtCategory_mem fm a)
  rw [hall] at hperm
  exact hperm.map Prod.fst

theorem lookup_eq_of_mem_nodup {α : Type} (l : List (String × α))
    (hnd : (l.map Prod.fst).Nodup) (k : String) (v : α) (h : (k, v) ∈ l) :
    l.lookup k = some v := by
  induction l with
  | nil => exact absurd h (List.not_mem_nil _)
  | cons p ps ih =>
    rcases List.nodup_cons.mp hnd with ⟨hp, hps⟩
    rcases List.mem_cons.mp h with h | h
    · rw [← h, lookupCons, if_pos rfl]
    · have hk : k ∈ ps.map Prod.fst := List.mem_map_of_mem Prod.fst h
      have hne : k ≠ p.1 := fun he => hp (he ▸ hk)
      rw [lookupCons, if_neg hne]
      exact ih hps h

theorem organize_keys_nodup (fm : List (String × FileMetadata))
    (stored : List (String × FileInfo)) :
    ((organize_files_by_category fm stored).map Prod.fst).Nodup := by
  rw [organize_eq]
  have hsub := (List.filter_sublist (p := fun p => !p.2.isEmpty)
    (DEFAULT_CATEGORIES.map fun c =>
      (c, (stored.filter (fun p => tgtCategory fm p == c)).map Prod.fst))).map Prod.fst
  refine List.Sublist.nodup hsub ?_
  rw [List.map_map]
  have : (Prod.fst ∘ fun c =>
      (c, (stored.filter (fun p => tgtCategory fm p == c)).map Prod.fst)) = id := rfl
  rw [this, List.map_id]
  decide

/-! ## Preference-tracker lemmas -/

/-- What `update_user_preferences` does, expressed through `prefsView`:
the target user's record goes through the four update blocks in source
order (with the `category` local rebound by the file-access block); all
other users' records are untouched. -/
theorem prefsView_update (fm : List (String × FileMetadata))
    (ups : List (String × UserPrefs)) (user_id : String) (file_id : Option String)
    (category : Option String) (tags : Option (List String))
    (explicit_preference : Option (List (String × String))) (u : String) :
    prefsView (update_user_preferences fm ups user_id file_id category tags
      explicit_preference) u =
      if u = user_id then
        explicitUpdate
          (interestTagsUpdate
            (interestCategoryUpdate (fileAccessUpdate fm (prefsView ups user_id) file_id).1
              (match (fileAccessUpdate fm (prefsView ups user_id) file_id).2 with
                | some c => some c
                | none => category))
            tags)
          explicit_preference
      else prefsView ups u := by
  rw [update_user_preferences]
  by_cases hs : (ups.lookup user_id).isSome
  · rw [if_pos hs]
    have h0 : ((ups.lookup user_id).getD emptyPrefs) = prefsView ups user_id := rfl
    by_cases hu : u = user_id
    · subst hu
      rw [prefsView, lookup_setK_self, Option.getD_some, if_pos rfl, h0]
    · rw [prefsView, lookup_setK_ne _ _ _ _ hu, if_neg hu, prefsView]
  · rw [if_neg hs]
    have hnone : ups.lookup user_id = none := by
      cases h : ups.lookup user_id
      · rfl
      · rw [h] at hs
        exact absurd rfl hs
    have h0 : ((setK ups user_id emptyPrefs).lookup user_id).getD emptyPrefs =
        prefsView ups user_id := by
      rw [lookup_setK_self, Option.getD_some, prefsView, hnone, Option.getD_none]
    by_cases hu : u = user_id
    · subst hu
      rw [prefsView, lookup_setK_self, Option.getD_some, if_pos rfl, h0]
    · rw [prefsView, lookup_setK_ne _ _ _ _ hu, lookup_setK_ne _ _ _ _ hu, if_neg hu,
        prefsView]

theorem fileAccessUpdate_none (fm : List (String × FileMetadata)) (prefs : UserPrefs)
    (file_id : Option String)
    (h : ∀ fid, file_id = some fid → fid ≠ "" → fm.lookup fid = none) :
    fileAccessUpdate fm prefs file_id = (prefs, none) := by
  match file_id with
  | none => rfl
  | some fid =>
    rw [fileAccessUpdate]
    by_cases he : fid = ""
    · rw [if_pos he]
    · rw [if_neg he, h fid rfl he]

theorem fileAccessUpdate_favC_le (fm : List (String × FileMetadata)) (prefs : UserPrefs)
    (file_id : Option String) (c : String) :
    (prefs.favorite_categories.lookup c).getD 0 ≤
      (((fileAccessUpdate fm prefs file_id).1.favorite_categories).lookup c).getD 0 := by
  match file_id with
  | none => exact Nat.le_refl _
  | some fid =>
    rw [fileAccessUpdate]
    by_cases he : fid = ""
    · rw [if_pos he]
    · rw [if_neg he]
      cases hm : fm.lookup fid with
      | none => exact Nat.le_refl _
      | some metadata =>
        simp only
        by_cases hc : metadata.category ≠ ""
        · rw [if_pos hc]
          exact getD_le_bump _ _ _ _
        · rw [if_neg hc]

theorem fileAccessUpdate_favT_le (fm : List (String × FileMetadata)) (prefs : UserPrefs)
    (file_id : Option String) (t : String) :
    (prefs.favorite_tags.lookup t).getD 0 ≤
      (((fileAccessUpdate fm prefs file_id).1.favorite_tags).lookup t).getD 0 := by
  match file_id with
  | none => exact Nat.le_refl _
  | some fid =>
    rw [fileAccessUpdate]
    by_cases he : fid = ""
    · rw [if_pos he]
    · rw [if_neg he]
      cases hm : fm.lookup fid with
      | none => exact Nat.le_refl _
      | some metadata =>
        simp only
        by_cases hc : metadata.category ≠ ""
        · rw [if_pos hc]
          exact getD_le_foldl_bump _ _ _ _
        · rw [if_neg hc]
          exact getD_le_foldl_bump _ _ _ _

theorem fileAccessUpdate_recent (fm : List (String × FileMetadata)) (prefs : UserPrefs)
    (file_id : Option String)
    (h : prefs.recently_accessed.Nodup ∧ prefs.recently_accessed.length ≤ 10) :
    (fileAccessUpdate fm prefs file_id).1.recently_accessed.Nodup ∧
      (fileAccessUpdate fm prefs file_id).1.recently_accessed.length ≤ 10 := by
  match file_id with
  | none => exact h
  | some fid =>
    by_cases he : fid = ""
    · have heq : fileAccessUpdate fm prefs (some fid) = (prefs, none) := by
        rw [fileAccessUpdate, if_pos he]
      rw [heq]
      exact h
    · cases hm : fm.lookup fid with
      | none =>
        have heq : fileAccessUpdate fm prefs (some fid) = (prefs, none) := by
          rw [fileAccessUpdate, if_neg he, hm]
        rw [heq]
        exact h
      | some metadata =>
        have hrec : (fileAccessUpdate fm prefs (some fid)).1.recently_accessed =
            (fid :: (if prefs.recently_accessed.contains fid then
              prefs.recently_accessed.erase fid else prefs.recently_accessed)).take 10 := by
          rw [fileAccessUpdate, if_neg he, hm]
          simp only
          by_cases hc : metadata.category ≠ ""
          · rw [if_pos hc]
          · rw [if_neg hc]
        rw [hrec]
        have hbase : (fid :: (if prefs.recently_accessed.contains fid then
            prefs.recently_accessed.erase fid else prefs.recently_accessed)).Nodup := by
          by_cases hin : prefs.recently_accessed.contains fid
          · rw [if_pos hin]
            refine List.nodup_cons.mpr ⟨?_, h.1.erase fid⟩
            intro hmem
            exact ((List.Nodup.mem_erase_iff h.1).mp hmem).1 rfl
          · rw [if_neg hin]
            refine List.nodup_cons.mpr ⟨?_, h.1⟩
            intro hmem
            exact hin (List.elem_eq_true_of_mem hmem)
        exact ⟨List.Nodup.sublist (List.take_sublist _ _) hbase, List.length_take_le _ _⟩

theorem interestCategoryUpdate_favC_le (prefs : UserPrefs) (category : Option String)
    (c : String) :
    (prefs.favorite_categories.lookup c).getD 0 ≤
      ((interestCategoryUpdate prefs category).favorite_categories.lookup c).getD 0 := by
  match category with
  | none => exact Nat.le_refl _
  | some cc =>
    rw [interestCategoryUpdate]
    by_cases hc : cc ≠ ""
    · rw [if_pos hc]
      exact getD_le_bump _ _ _ _
    · rw [if_neg hc]

theorem interestCategoryUpdate_other (prefs : UserPrefs) (category : Option String) :
    (interestCategoryUpdate prefs category).favorite_tags = prefs.favorite_tags ∧
      (interestCategoryUpdate prefs category).recently_accessed =
        prefs.recently_accessed := by
  match category with
  | none => exact ⟨rfl, rfl⟩
  | some cc =>
    rw [interestCategoryUpdate]
    by_cases hc : cc ≠ ""
    · rw [if_pos hc]
      exact ⟨rfl, rfl⟩
    · rw [if_neg hc]
      exact ⟨rfl, rfl⟩

theorem interestTagsUpdate_favT_le (prefs : UserPrefs) (tags : Option (List String))
    (t : String) :
    (prefs.favorite_tags.lookup t).getD 0 ≤
      ((interestTagsUpdate prefs tags).favorite_tags.lookup t).getD 0 := by
  match tags with
  | none => exact Nat.le_refl _
  | some ts =>
    rw [interestTagsUpdate]
    by_cases hts : ts ≠ []
    · rw [if_pos hts]
      exact getD_le_foldl_bump _ _ _ _
    · rw [if_neg hts]

theorem interestTagsUpdate_other (prefs : UserPrefs) (tags : Option (List String)) :
    (interestTagsUpdate prefs tags).favorite_categories = prefs.favorite_categories ∧
      (interestTagsUpdate prefs tags).recently_accessed = prefs.recently_accessed := by
  match tags with
  | none => exact ⟨rfl, rfl⟩
  | some ts =>
    rw [interestTagsUpdate]
    by_cases hts : ts ≠ []
    · rw [if_pos hts]
      exact ⟨rfl, rfl⟩
    · rw [if_neg hts]
      exact ⟨rfl, rfl⟩

theorem explicitUpdate_other (prefs : UserPrefs)
    (explicit_preference : Option (List (String × String))) :
    (explicitUpdate prefs explicit_preference).favorite_categories =
        prefs.favorite_categories ∧
      (explicitUpdate prefs explicit_preference).favorite_tags = prefs.favorite_tags ∧
      (explicitUpdate prefs explicit_preference).recently_accessed =
        prefs.recently_accessed := by
  match explicit_preference with
  | none => exact ⟨rfl, rfl, rfl⟩
  | some ep =>
    rw [explicitUpdate]
    by_cases hep : ep ≠ []
    · rw [if_pos hep]
      exact ⟨rfl, rfl, rfl⟩
    · rw [if_neg hep]
      exact ⟨rfl, rfl, rfl⟩

/-! ## Recommender and Similarity lemmas -/

/-- The code's score agrees with the spec's `.get(..., 0)` formula as
soon as the favorite-category table has no weight under the empty
string — the one key the code's truthiness guard (`if category and
category in fav_categories`) treats differently.  The tracker never
creates such a key (`favC_empty_invariant`). -/
theorem recommendScore_eq_spec (fm : List (String × FileMetadata))
    (favC favT : List (String × Nat)) (p : String × FileInfo)
    (h : (favC.lookup "").getD 0 = 0) :
    recommendScore fm favC favT p = specRecommendScore fm favC favT p := by
  rw [recommendScore, specRecommendScore]
  cases hm : fm.lookup (metaIdOf p) with
  | none => rfl
  | some m =>
    have htags : m.tags.map (fun tag =>
        if (favT.lookup tag).isSome then (favT.lookup tag).getD 0 else 0) =
        m.tags.map (fun t => (favT.lookup t).getD 0) := by
      refine List.map_congr_left (fun t _ => ?_)
      cases ht : favT.lookup t
      · simp [ht]
      · simp [ht]
    dsimp only
    rw [htags]
    congr 1
    by_cases hc : m.category = ""
    · rw [if_neg (fun hand => hand.1 hc), hc, h]
    · by_cases hs : (favC.lookup m.category).isSome
      · rw [if_pos ⟨hc, hs⟩]
      · rw [if_neg (fun hand => hs hand.2)]
        cases hl : favC.lookup m.category
        · rfl
        · rw [hl] at hs
          exact absurd rfl hs

/-- The code's distinct-common-tag count is the cardinality of the
tag-set intersection. -/
theorem similarityScore_eq_spec (r m : FileMetadata) :
    similarityScore r m = specSimilarityScore r m := by
  rw [similarityScore, specSimilarityScore]
  congr 2
  rw [← List.card_toFinset]
  congr 1
  ext x
  simp only [List.mem_toFinset, List.mem_filter, Finset.mem_inter]
  constructor
  · rintro ⟨h1, h2⟩
    exact ⟨h1, List.mem_of_elem_eq_true h2⟩
  · rintro ⟨h1, h2⟩
    exact ⟨h1, List.elem_eq_true_of_mem h2⟩

theorem take_min {α : Type} (l : List α) (n : Nat) : l.take (min n l.length) = l.take n := by
  rcases Nat.le_total n l.length with h | h
  · rw [Nat.min_eq_left h]
  · rw [Nat.min_eq_right h, List.take_length, List.take_of_length_le h]

/-! ## Claim theorems -/

/-- C4: heuristic classification (`analyze_file_name`) derives the
extension as the last dot-delimited segment of the name, lower-cased
(empty if the name has no dot); maps type `photo`/`video`/`audio` to
`Images`/`Videos`/`Audio`, a `document` type through the fixed extension
table (any other type to `Other`); always produces empty tags, no
description text, and `ai_analyzed = false` (the spec's
`classified_by_ai`); and on `"report.pdf"` of type `"document"` yields
category `Documents` and extension `"pdf"`. -/
theorem analyze_file_name_spec (file_name file_type now : String) :
    (analyze_file_name file_name file_type now).tags = [] ∧
    (analyze_file_name file_name file_type now).description = none ∧
    (analyze_file_name file_name file_type now).ai_analyzed = false ∧
    (analyze_file_name file_name file_type now).extension = extensionOf file_name ∧
    ('.' ∉ file_name.data → (analyze_file_name file_name file_type now).extension = "") ∧
    (file_type = "photo" → (analyze_file_name file_name file_type now).category = "Images") ∧
    (file_type = "video" → (analyze_file_name file_name file_type now).category = "Videos") ∧
    (file_type = "audio" → (analyze_file_name file_name file_type now).category = "Audio") ∧
    (file_type = "document" → (analyze_file_name file_name file_type now).category =
      docCategoryOfExtension (extensionOf file_name)) ∧
    (file_type ∉ ["photo", "video", "audio", "document"] →
      (analyze_file_name file_name file_type now).category = "Other") ∧
    (analyze_file_name "report.pdf" "document" now).category = "Documents" ∧
    (analyze_file_name "report.pdf" "document" now).extension = "pdf" := by
  refine ⟨rfl, rfl, rfl, rfl, ?_, ?_, ?_, ?_, ?_, ?_, rfl, rfl⟩
  · intro h
    rw [analyze_file_name]
    dsimp only
    rw [extensionOf, if_neg h]
  · intro h
    subst h
    rfl
  · intro h
    subst h
    rfl
  · intro h
    subst h
    rfl
  · intro h
    subst h
    rfl
  · intro h
    have h1 : file_type ≠ "photo" := fun he => h (by rw [he]; decide)
    have h2 : file_type ≠ "video" := fun he => h (by rw [he]; decide)
    have h3 : file_type ≠ "audio" := fun he => h (by rw [he]; decide)
    have h4 : file_type ≠ "document" := fun he => h (by rw [he]; decide)
    rw [analyze_file_name]
    dsimp only
    rw [if_neg h1, if_neg h2, if_neg h3, if_neg h4]

theorem analyze_file_name_spec_witness :
    (analyze_file_name "x" "photo" "t").category = "Images" ∧
    (analyze_file_name "archive" "document" "t").extension = "" ∧
    (analyze_file_name "x.JPG" "sticker" "t").category = "Other" ∧
    (analyze_file_name "notes.txt" "document" "t").category =
      docCategoryOfExtension (extensionOf "notes.txt") := by
  refine ⟨(analyze_file_name_spec "x" "photo" "t").2.2.2.2.2.1 rfl,
    (analyze_file_name_spec "archive" "document" "t").2.2.2.2.1 (by decide),
    (analyze_file_name_spec "x.JPG" "sticker" "t").2.2.2.2.2.2.2.2.2.1 (by decide),
    (analyze_file_name_spec "notes.txt" "document" "t").2.2.2.2.2.2.2.2.1 rfl⟩

/-- C9: when the external capability is not configured (`noApiKey`) or
any failure occurs during the call or response parsing (`failure`),
`analyze_file_with_ai` returns exactly the heuristic classification of
the descriptor's name and type (the model is total, so nothing is
raised to the caller); on the successful path the tags are clamped to
at most five entries and the returned category is accepted verbatim,
whatever string it is. -/
theorem analyze_file_with_ai_spec (file_info : FileInfo) (now e : String) (r : AIResult) :
    analyze_file_with_ai file_info AIOutcome.noApiKey now =
      analyze_file_name file_info.name file_info.ftype now ∧
    analyze_file_with_ai file_info (AIOutcome.failure e) now =
      analyze_file_name file_info.name file_info.ftype now ∧
    (analyze_file_with_ai file_info (AIOutcome.ok r) now).tags = (r.tags.getD []).take 5 ∧
    (analyze_file_with_ai file_info (AIOutcome.ok r) now).tags.length ≤ 5 ∧
    (analyze_file_with_ai file_info (AIOutcome.ok r) now).category = r.category.getD "Other" ∧
    (∀ c, r.category = some c →
      (analyze_file_with_ai file_info (AIOutcome.ok r) now).category = c) := by
  refine ⟨rfl, rfl, rfl, List.length_take_le _ _, rfl, ?_⟩
  intro c hc
  rw [analyze_file_with_ai]
  dsimp only
  rw [hc, Option.getD_some]

theorem analyze_file_with_ai_spec_witness :
    (analyze_file_with_ai exInfo (AIOutcome.ok
      { category := some "Selfies", tags := some ["a", "b", "c", "d", "e", "f"],
        description := none }) "t").category = "Selfies" :=
  (analyze_file_with_ai_spec exInfo "t" "err"
    { category := some "Selfies", tags := some ["a", "b", "c", "d", "e", "f"],
      description := none }).2.2.2.2.2 "Selfies" rfl

/-- C6: for a user with no preference record, `get_recommendations`
returns exactly the first `min(count, |catalog|)` catalog identifiers in
catalog iteration order. -/
theorem get_recommendations_cold_start (fm : List (String × FileMetadata))
    (ups : List (String × UserPrefs)) (user_id : String)
    (stored_files : List (String × FileInfo)) (count : Nat)
    (hu : ups.lookup user_id = none) :
    get_recommendations fm ups user_id stored_files count =
      (stored_files.map Prod.fst).take count ∧
    (get_recommendations fm ups user_id stored_files count).length =
      min count stored_files.length := by
  have hmain : get_recommendations fm ups user_id stored_files count =
      (stored_files.map Prod.fst).take count := by
    simp only [get_recommendations, hu]
    rw [take_min]
  refine ⟨hmain, ?_⟩
  rw [hmain, List.length_take, List.length_map]

theorem get_recommendations_cold_start_witness :
    get_recommendations [] [] "9" [("f0", exInfo), ("f1", exInfo)] 1 =
      (([("f0", exInfo), ("f1", exInfo)] :
        List (String × FileInfo)).map Prod.fst).take 1 :=
  (get_recommendations_cold_start [] [] "9" [("f0", exInfo), ("f1", exInfo)] 1 rfl).1

/-- C5: `record_access` (an `update_user_preferences` call carrying only
a `file_id`) for a file with no metadata record changes no user's
observable preference record: no entry is added to `recently_accessed`
and no category or tag weight changes.  (The only state difference is
that a fresh all-empty record may be materialised for a previously
unknown user, which `prefsView` renders identically.) -/
theorem record_access_no_metadata_noop (fm : List (String × FileMetadata))
    (ups : List (String × UserPrefs)) (user_id : String) (file_id : String)
    (hm : fm.lookup file_id = none) :
    ∀ u, prefsView (record_access fm ups user_id file_id) u = prefsView ups u := by
  intro u
  have hfa : fileAccessUpdate fm (prefsView ups user_id) (some file_id) =
      (prefsView ups user_id, none) := by
    refine fileAccessUpdate_none _ _ _ (fun f hf _ => ?_)
    cases hf
    exact hm
  by_cases hu : u = user_id
  · subst hu
    rw [record_access, prefsView_update, if_pos rfl, hfa]
    rfl
  · rw [record_access, prefsView_update, if_neg hu]

theorem record_access_no_metadata_noop_witness :
    prefsView (record_access [("g", exMeta)] [] "7" "f1") "7" = prefsView [] "7" :=
  record_access_no_metadata_noop [("g", exMeta)] [] "7" "f1" (by decide) "7"

/-- C1 (counterexample): on a fresh user accessing file `"f1"` whose
metadata record has category `"Documents"` and tags `["work"]`, the code
leaves `favorite_categories["Documents"] = 4`, not the claimed `1`: the
access branch adds `1`, then — because line 279 rebinds the local
`category` to the file's category — the explicit-interest branch fires
too and adds `3`.  The tag weight and the recently-accessed push behave
as claimed. -/
theorem record_access_category_weight_four :
    prefsView (record_access [("f1", exMeta)] [] "7" "f1") "7" =
      { favorite_categories := [("Documents", 4)], favorite_tags := [("work", 1)],
        recently_accessed := ["f1"], explicit_preferences := [] } := by
  decide

/-- C8: the mutating operations preserve the subsystem's invariants.
`track_file_access` never lowers any file's `access_count`, and `N`
successful accesses of a file with a record add exactly `N`;
`update_user_preferences` (with arbitrary arguments, covering
`record_access`, `record_interest` and `set_explicit`) never lowers any
user's favorite-category or favorite-tag weight; and it keeps every
user's `recently_accessed` duplicate-free with at most 10 entries.
(`track_file_access` touches only the metadata store and
`update_user_preferences` only the preference store, so each list of
conclusions covers every operation that can affect it.) -/
theorem subsystem_invariants (fm : List (String × FileMetadata))
    (ups : List (String × UserPrefs)) (user_id : String)
    (file_id category : Option String) (tags : Option (List String))
    (explicit_preference : Option (List (String × String)))
    (fid now : String) (m : FileMetadata) (N : Nat)
    (hm : fm.lookup fid = some m)
    (hra : ∀ u, (prefsView ups u).recently_accessed.Nodup ∧
      (prefsView ups u).recently_accessed.length ≤ 10) :
    (∀ g, ((fm.lookup g).map FileMetadata.access_count).getD 0 ≤
      (((track_file_access fm fid now).lookup g).map FileMetadata.access_count).getD 0) ∧
    (∃ m2, (((fun s => track_file_access s fid now)^[N]) fm).lookup fid = some m2 ∧
      m2.access_count = m.access_count + N) ∧
    (∀ u c, ((prefsView ups u).favorite_categories.lookup c).getD 0 ≤
      ((prefsView (update_user_preferences fm ups user_id file_id category tags
        explicit_preference) u).favorite_categories.lookup c).getD 0) ∧
    (∀ u t, ((prefsView ups u).favorite_tags.lookup t).getD 0 ≤
      ((prefsView (update_user_preferences fm ups user_id file_id category tags
        explicit_preference) u).favorite_tags.lookup t).getD 0) ∧
    (∀ u, (prefsView (update_user_preferences fm ups user_id file_id category tags
        explicit_preference) u).recently_accessed.Nodup ∧
      (prefsView (update_user_preferences fm ups user_id file_id category tags
        explicit_preference) u).recently_accessed.length ≤ 10) := by
  have htrack : track_file_access fm fid now =
      setK fm fid
        { m with last_accessed := some now, access_count := m.access_count + 1 } := by
    rw [track_file_access, hm]
  refine ⟨?_, ?_, ?_, ?_, ?_⟩
  · intro g
    by_cases hg : g = fid
    · subst hg
      rw [htrack, lookup_setK_self, hm]
      exact Nat.le_succ _
    · rw [htrack, lookup_setK_ne _ _ _ _ hg]
  · clear htrack
    induction N with
    | zero => exact ⟨m, hm, rfl⟩
    | succ n ih =>
      rcases ih with ⟨m2, h2, hc⟩
      refine
        ⟨{ m2 with last_accessed := some now, access_count := m2.access_count + 1 }, ?_, ?_⟩
      · rw [Function.iterate_succ_apply']
        rw [track_file_access, h2, lookup_setK_self]
      · dsimp only
        rw [hc]
        exact (Nat.add_assoc _ _ _)
  · intro u c
    rw [prefsView_update]
    by_cases hu : u = user_id
    · rw [if_pos hu, (explicitUpdate_other _ _).1, (interestTagsUpdate_other _ _).1]
      subst hu
      exact Nat.le_trans (fileAccessUpdate_favC_le fm (prefsView ups u) file_id c)
        (interestCategoryUpdate_favC_le _ _ c)
    · rw [if_neg hu]
  · intro u t
    rw [prefsView_update]
    by_cases hu : u = user_id
    · rw [if_pos hu, (explicitUpdate_other _ _).2.1]
      subst hu
      refine Nat.le_trans (fileAccessUpdate_favT_le fm (prefsView ups u) file_id t) ?_
      refine Nat.le_trans ?_ (interestTagsUpdate_favT_le _ tags t)
      rw [(interestCategoryUpdate_other _ _).1]
    · rw [if_neg hu]
  · intro u
    rw [prefsView_update]
    by_cases hu : u = user_id
    · rw [if_pos hu, (explicitUpdate_other _ _).2.2, (interestTagsUpdate_other _ _).2,
        (interestCategoryUpdate_other _ _).2]
      subst hu
      exact fileAccessUpdate_recent fm (prefsView ups u) file_id (hra u)
    · rw [if_neg hu]
      exact hra u

theorem subsystem_invariants_witness :
    (∃ m2, (((fun s => track_file_access s "f1" "t1")^[2]) [("f1", exMeta)]).lookup "f1" =
        some m2 ∧ m2.access_count = exMeta.access_count + 2) ∧
    ((prefsView [] "7").favorite_categories.lookup "Code").getD 0 ≤
      ((prefsView (update_user_preferences [("f1", exMeta)] [] "7" (some "f1")
        (some "Code") (some ["x"]) (some [("k", "v")])) "7").favorite_categories.lookup
        "Code").getD 0 ∧
    (prefsView (update_user_preferences [("f1", exMeta)] [] "7" (some "f1")
      (some "Code") (some ["x"]) (some [("k", "v")])) "7").recently_accessed.Nodup := by
  have h := subsystem_invariants [("f1", exMeta)] [] "7" (some "f1") (some "Code")
    (some ["x"]) (some [("k", "v")]) "f1" "t1" exMeta 2 (by decide)
    (fun u => ⟨List.nodup_nil, Nat.zero_le 10⟩)
  exact ⟨h.2.1, h.2.2.1 "7" "Code", (h.2.2.2.2 "7").1⟩

theorem fileAccessUpdate_favC_empty (fm : List (String × FileMetadata))
    (prefs : UserPrefs) (file_id : Option String)
    (h : ((prefs.favorite_categories.lookup "")).getD 0 = 0) :
    ((fileAccessUpdate fm prefs file_id).1.favorite_categories.lookup "").getD 0 = 0 := by
  match file_id with
  | none => exact h
  | some fid =>
    by_cases he : fid = ""
    · have heq : fileAccessUpdate fm prefs (some fid) = (prefs, none) := by
        rw [fileAccessUpdate, if_pos he]
      rw [heq]
      exact h
    · cases hm : fm.lookup fid with
      | none =>
        have heq : fileAccessUpdate fm prefs (some fid) = (prefs, none) := by
          rw [fileAccessUpdate, if_neg he, hm]
        rw [heq]
        exact h
      | some metadata =>
        rw [fileAccessUpdate, if_neg he, hm]
        simp only
        by_cases hc : metadata.category ≠ ""
        · rw [if_pos hc]
          dsimp only
          rw [lookup_bump_ne _ _ _ _ (fun heq => hc heq.symm)]
          exact h
        · rw [if_neg hc]
          exact h

theorem interestCategoryUpdate_favC_empty (prefs : UserPrefs) (category : Option String)
    (h : ((prefs.favorite_categories.lookup "")).getD 0 = 0) :
    ((interestCategoryUpdate prefs category).favorite_categories.lookup "").getD 0 = 0 := by
  match category with
  | none => exact h
  | some cc =>
    rw [interestCategoryUpdate]
    by_cases hcc : cc ≠ ""
    · rw [if_pos hcc]
      dsimp only
      rw [lookup_bump_ne _ _ _ _ (fun heq => hcc heq.symm)]
      exact h
    · rw [if_neg hcc]
      exact h

/-- Reachability of the hypothesis of `get_recommendations_ranks_by_spec_score`:
no preference-tracker mutation ever creates a favorite-category weight
under the empty-string key, so the code's truthiness guard never makes
a difference on states the program itself produces. -/
theorem favC_empty_invariant (fm : List (String × FileMetadata))
    (ups : List (String × UserPrefs)) (user_id : String)
    (file_id category : Option String) (tags : Option (List String))
    (explicit_preference : Option (List (String × String)))
    (h : ∀ u, ((prefsView ups u).favorite_categories.lookup "").getD 0 = 0) :
    ∀ u, ((prefsView (update_user_preferences fm ups user_id file_id category tags
      explicit_preference) u).favorite_categories.lookup "").getD 0 = 0 := by
  intro u
  rw [prefsView_update]
  by_cases hu : u = user_id
  · rw [if_pos hu, (explicitUpdate_other _ _).1, (interestTagsUpdate_other _ _).1]
    subst hu
    exact interestCategoryUpdate_favC_empty _ _
      (fileAccessUpdate_favC_empty fm (prefsView ups u) file_id (h u))
  · rw [if_neg hu]
    exact h u

/-- C2: for a user with a preference record (whose favorite-category
table carries no weight under the empty string — an invariant of the
tracker, see `favC_empty_invariant`), `get_recommendations` never
returns a recently-accessed identifier, and equals the spec pipeline:
score every non-recent catalog entry with
`favorite_categories.get(category, 0) + Σ favorite_tags.get(tag, 0)`
(missing metadata scores 0 but stays eligible), stable-sort descending,
take the first `count`.  The last three conjuncts certify that
`sortDesc` is exactly that stable descending sort: it permutes its
input, its output scores are non-increasing, and entries of any fixed
score keep their catalog order. -/
theorem get_recommendations_ranks_by_spec_score (fm : List (String × FileMetadata))
    (ups : List (String × UserPrefs)) (user_id : String)
    (stored_files : List (String × FileInfo)) (count : Nat) (prefs : UserPrefs)
    (hu : ups.lookup user_id = some prefs)
    (hfc : (prefs.favorite_categories.lookup "").getD 0 = 0) :
    let scored := (stored_files.filter
      (fun p => !(prefs.recently_accessed.contains p.1))).map
      (fun p => (p.1, specRecommendScore fm prefs.favorite_categories
        prefs.favorite_tags p));
    (∀ f ∈ get_recommendations fm ups user_id stored_files count,
      f ∉ prefs.recently_accessed) ∧
    get_recommendations fm ups user_id stored_files count =
      ((sortDesc scored).map Prod.fst).take count ∧
    get_recommendations fm ups user_id stored_files count =
      recommend_spec fm prefs stored_files count ∧
    (sortDesc scored).Pairwise (fun a b => b.2 ≤ a.2) ∧
    (sortDesc scored).Perm scored ∧
    (∀ s, (sortDesc scored).filter (fun p => p.2 == s) =
      scored.filter (fun p => p.2 == s)) := by
  intro scored
  have hmap : (stored_files.filter
      (fun p => !(prefs.recently_accessed.contains p.1))).map
      (fun p => (p.1, recommendScore fm prefs.favorite_categories
        prefs.favorite_tags p)) = scored :=
    List.map_congr_left (fun p _ => by rw [recommendScore_eq_spec _ _ _ _ hfc])
  have heq : get_recommendations fm ups user_id stored_files count =
      ((sortDesc scored).map Prod.fst).take count := by
    simp only [get_recommendations, hu]
    rw [hmap]
  refine ⟨?_, heq, heq.trans rfl, sortDesc_pairwise _, sortDesc_perm _,
    fun s => sortDesc_filter_score _ s⟩
  intro f hf
  rw [heq] at hf
  have h1 := List.take_subset _ _ hf
  rcases List.mem_map.mp h1 with ⟨pair, hpair, hpf⟩
  have h2 : pair ∈ scored := (sortDesc_perm _).mem_iff.mp hpair
  rcases List.mem_map.mp h2 with ⟨q, hq, hqe⟩
  have hpred := (List.mem_filter.mp hq).2
  intro hmem
  have hcont : prefs.recently_accessed.contains f = true :=
    List.elem_eq_true_of_mem hmem
  have hq1 : q.1 = f := by
    rw [← hpf, ← hqe]
  rw [hq1, hcont] at hpred
  exact Bool.false_ne_true hpred

theorem get_recommendations_ranks_witness :
    get_recommendations [("f1", exMeta)]
      [("7", { favorite_categories := [("Documents", 4)], favorite_tags := [],
               recently_accessed := ["f0"], explicit_preferences := [] })]
      "7" [("f0", exInfo), ("f1", exInfo), ("f2", exInfo)] 2 =
      recommend_spec [("f1", exMeta)]
        { favorite_categories := [("Documents", 4)], favorite_tags := [],
          recently_accessed := ["f0"], explicit_preferences := [] }
        [("f0", exInfo), ("f1", exInfo), ("f2", exInfo)] 2 ∧
    get_recommendations [("f1", exMeta)]
      [("7", { favorite_categories := [("Documents", 4)], favorite_tags := [],
               recently_accessed := ["f0"], explicit_preferences := [] })]
      "7" [("f0", exInfo), ("f1", exInfo), ("f2", exInfo)] 2 = ["f1", "f2"] := by
  refine ⟨(get_recommendations_ranks_by_spec_score [("f1", exMeta)]
    [("7", { favorite_categories := [("Documents", 4)], favorite_tags := [],
             recently_accessed := ["f0"], explicit_preferences := [] })] "7"
    [("f0", exInfo), ("f1", exInfo), ("f2", exInfo)] 2
    { favorite_categories := [("Documents", 4)], favorite_tags := [],
      recently_accessed := ["f0"], explicit_preferences := [] }
    (by decide) (by decide)).2.2.1, by decide⟩

/-- C3: `get_similar_files` returns the empty sequence when the
reference file has no metadata record; otherwise it never returns the
reference itself, skips every catalog entry lacking a metadata record,
scores each remaining entry as `5` for a category match plus `2 ×` the
tag-set intersection size, and returns at most `count` identifiers,
stable-sorted descending (the last three conjuncts certify the sort:
permutation, non-increasing scores, ties in catalog order). -/
theorem get_similar_files_spec (fm : List (String × FileMetadata))
    (stored_files : List (String × FileInfo)) (file_id : String) (count : Nat) :
    (fm.lookup (similarMetaId stored_files file_id) = none →
      get_similar_files fm stored_files file_id count = []) ∧
    (∀ ref, fm.lookup (similarMetaId stored_files file_id) = some ref →
      let scored := (stored_files.filter (fun p => !(p.1 == file_id))).filterMap (fun p =>
        match fm.lookup (metaIdOf p) with
        | none => none
        | some metadata => some (p.1, specSimilarityScore ref metadata));
      get_similar_files fm stored_files file_id count =
        ((sortDesc scored).map Prod.fst).take count ∧
      get_similar_files fm stored_files file_id count =
        similar_spec fm stored_files file_id count ref ∧
      file_id ∉ get_similar_files fm stored_files file_id count ∧
      (get_similar_files fm stored_files file_id count).length ≤ count ∧
      (sortDesc scored).Pairwise (fun a b => b.2 ≤ a.2) ∧
      (sortDesc scored).Perm scored ∧
      (∀ s, (sortDesc scored).filter (fun p => p.2 == s) =
        scored.filter (fun p => p.2 == s))) := by
  constructor
  · intro h
    simp only [get_similar_files, h]
  · intro ref href
    intro scored
    have hfun : (fun (p : String × FileInfo) =>
        match fm.lookup (metaIdOf p) with
        | none => none
        | some metadata => some (p.1, similarityScore ref metadata)) =
        (fun (p : String × FileInfo) =>
        match fm.lookup (metaIdOf p) with
        | none => none
        | some metadata => some (p.1, specSimilarityScore ref metadata)) := by
      funext p
      cases fm.lookup (metaIdOf p)
      · rfl
      · dsimp only
        rw [similarityScore_eq_spec]
    have heq : get_similar_files fm stored_files file_id count =
        ((sortDesc scored).map Prod.fst).take count := by
      simp only [get_similar_files, href]
      rw [hfun]
    have hspec : get_similar_files fm stored_files file_id count =
        similar_spec fm stored_files file_id count ref := heq.trans rfl
    refine ⟨heq, hspec, ?_, ?_, sortDesc_pairwise _, sortDesc_perm _,
      fun s => sortDesc_filter_score _ s⟩
    · intro hmem
      rw [heq] at hmem
      have h1 := List.take_subset _ _ hmem
      rcases List.mem_map.mp h1 with ⟨pair, hpair, hpf⟩
      have h2 : pair ∈ scored := (sortDesc_perm _).mem_iff.mp hpair
      rcases List.mem_filterMap.mp h2 with ⟨q, hq, hqe⟩
      have hqpred := (List.mem_filter.mp hq).2
      cases hml : fm.lookup (metaIdOf q) with
      | none =>
        rw [hml] at hqe
        exact Option.noConfusion hqe
      | some mq =>
        rw [hml] at hqe
        dsimp only at hqe
        have hq1 : q.1 = file_id := by
          have h3 : (q.1, specSimilarityScore ref mq) = pair := Option.some.inj hqe
          rw [← hpf, ← h3]
        rw [hq1] at hqpred
        simp at hqpred
    · rw [heq]
      exact List.length_take_le _ _

theorem get_similar_files_spec_witness :
    get_similar_files [] [("f1", exInfo)] "f1" 3 = [] ∧
    get_similar_files [("f1", exMeta), ("f2", exMeta)]
      [("f1", exInfo), ("f2", exInfo)] "f1" 3 =
      similar_spec [("f1", exMeta), ("f2", exMeta)]
        [("f1", exInfo), ("f2", exInfo)] "f1" 3 exMeta ∧
    "f1" ∉ get_similar_files [("f1", exMeta), ("f2", exMeta)]
      [("f1", exInfo), ("f2", exInfo)] "f1" 3 := by
  refine ⟨(get_similar_files_spec [] [("f1", exInfo)] "f1" 3).1 rfl, ?_, ?_⟩
  · exact ((get_similar_files_spec [("f1", exMeta), ("f2", exMeta)]
      [("f1", exInfo), ("f2", exInfo)] "f1" 3).2 exMeta (by decide)).2.1
  · exact ((get_similar_files_spec [("f1", exMeta), ("f2", exMeta)]
      [("f1", exInfo), ("f2", exInfo)] "f1" 3).2 exMeta (by decide)).2.2.1

/-- C7: `organize_files_by_category` never returns a category with an
empty list, the concatenation of all returned lists is a permutation of
the catalog's identifiers, and — when the catalog's keys are distinct,
as dictionary keys are — that concatenation is itself duplicate-free,
so every catalog entry appears in exactly one category's list. -/
theorem organize_partition (fm : List (String × FileMetadata))
    (stored_files : List (String × FileInfo)) :
    (∀ p ∈ organize_files_by_category fm stored_files, p.2 ≠ []) ∧
    (((organize_files_by_category fm stored_files).map Prod.snd).flatten).Perm
      (stored_files.map Prod.fst) ∧
    ((stored_files.map Prod.fst).Nodup →
      (((organize_files_by_category fm stored_files).map Prod.snd).flatten).Nodup) := by
  refine ⟨?_, organize_join_perm fm stored_files, ?_⟩
  · intro p hp
    rw [organize_eq] at hp
    have hcond := (List.mem_filter.mp hp).2
    intro he
    rw [he] at hcond
    simp at hcond
  · intro h
    exact ((organize_join_perm fm stored_files).nodup_iff).mpr h

theorem organize_partition_witness :
    (((organize_files_by_category [("f1", exMeta)]
      [("f1", exInfo), ("f2", exInfo)]).map Prod.snd).flatten).Nodup ∧
    (((organize_files_by_category [("f1", exMeta)]
      [("f1", exInfo), ("f2", exInfo)]).map Prod.snd).flatten).Perm
      (([("f1", exInfo), ("f2", exInfo)] : List (String × FileInfo)).map Prod.fst) :=
  ⟨(organize_partition [("f1", exMeta)] [("f1", exInfo), ("f2", exInfo)]).2.2 (by decide),
   (organize_partition [("f1", exMeta)] [("f1", exInfo), ("f2", exInfo)]).2.1⟩

/-- C10: every key `organize_files_by_category` returns belongs to the
fixed ten-category set, and a catalog entry whose metadata record
carries an unrecognized category string is placed in the `"Other"`
list, not under its verbatim category. -/
theorem organize_only_fixed_keys (fm : List (String × FileMetadata))
    (stored_files : List (String × FileInfo)) :
    (∀ p ∈ organize_files_by_category fm stored_files, p.1 ∈ DEFAULT_CATEGORIES) ∧
    (∀ q m, q ∈ stored_files → fm.lookup (metaIdOf q) = some m →
      m.category ∉ DEFAULT_CATEGORIES →
      ∃ l, (organize_files_by_category fm stored_files).lookup "Other" = some l ∧
        q.1 ∈ l) := by
  constructor
  · intro p hp
    rw [organize_eq] at hp
    have hm := (List.mem_filter.mp hp).1
    rcases List.mem_map.mp hm with ⟨c, hc, hce⟩
    rw [← hce]
    exact hc
  · intro q m hq hlook hnot
    have hraw : rawCategory fm q = m.category := by
      rw [rawCategory, hlook]
    have htgt : tgtCategory fm q = "Other" := by
      rw [tgtCategory, hraw]
      exact if_neg hnot
    have hsel : q.1 ∈ (stored_files.filter
        (fun p => tgtCategory fm p == "Other")).map Prod.fst := by
      refine List.mem_map_of_mem Prod.fst (List.mem_filter.mpr ⟨hq, ?_⟩)
      rw [htgt]
      exact beq_self_eq_true _
    have hne : (!((stored_files.filter
        (fun p => tgtCategory fm p == "Other")).map Prod.fst).isEmpty) = true := by
      cases hi : ((stored_files.filter
          (fun p => tgtCategory fm p == "Other")).map Prod.fst).isEmpty
      · rfl
      · rw [List.isEmpty_iff.mp hi] at hsel
        exact absurd hsel (List.not_mem_nil _)
    have hOmem : ("Other", (stored_files.filter
        (fun p => tgtCategory fm p == "Other")).map Prod.fst) ∈
        organize_files_by_category fm stored_files := by
      rw [organize_eq]
      refine List.mem_filter.mpr ⟨?_, hne⟩
      exact List.mem_map.mpr ⟨"Other", by decide, rfl⟩
    exact ⟨_, lookup_eq_of_mem_nodup _ (organize_keys_nodup fm stored_files) _ _ hOmem,
      hsel⟩

theorem organize_only_fixed_keys_witness :
    ∃ l, (organize_files_by_category [("f1", exMetaWeird)]
      [("f1", exInfo)]).lookup "Other" = some l ∧ "f1" ∈ l :=
  (organize_only_fixed_keys [("f1", exMetaWeird)] [("f1", exInfo)]).2 ("f1", exInfo)
    exMetaWeird (by decide) (by decide) (by decide)

end FileStore
